import Mathlib

/-!
Shallow embedding of the Binary Integrity Comparator from
verify-cef-integrity.js: the tree differ, file-pair classifier,
binary format sniffer, section extractor and signature-region hasher.

Modelling conventions:
* A file content is a list of byte values (Nat, each below 256 for a
  real file).
* Cryptographic digests (SHA-256) are idealised as injective, so a
  digest is modelled by the hashed byte stream itself; two digests are
  equal exactly when the hashed contents are equal.
* The section table that the source recovers by running otool and
  parsing its text output with a regex is modelled as input data: a
  FileModel carries the parsed section declarations, or none when the
  otool invocation fails.
* Node reads (fs.readSync into a zero-initialised Buffer.alloc buffer)
  never fail on short files: bytes beyond end of file stay zero. This
  is reflected in byteAt and readSection.
* Relative paths inside one extracted bundle are distinct, so the
  JavaScript Set of paths coincides with the enumerated list; theorems
  that need this state it as a Nodup hypothesis.
-/

/-- One parsed line of the otool section table: sectname, segname,
size (hex) and offset (decimal), as captured by the regex in
hashMachOSegments. -/
structure SectionDecl where
  sectname : String
  segname : String
  size : Nat
  offset : Nat
deriving DecidableEq

/-- A file as the comparator sees it: its byte content, and the parsed
otool section table (none when running otool on it fails, e.g. it is
not introspectable). -/
structure FileModel where
  bytes : List Nat
  otool : Option (List SectionDecl)
deriving DecidableEq

/-- Result of compareFiles: the strings match, signature-only and
modified of the source. -/
inductive Classification where
  | fileMatch
  | signatureOnly
  | modified
deriving DecidableEq

/-- The report record built by compareApps. -/
structure Report where
  matched : Nat
  modified : List String
  signatureOnly : List String
  missingInLocal : List String
  missingInOriginal : List String
deriving DecidableEq

/-- SIGNATURE_PATTERNS: files/patterns to skip when comparing. -/
def SIGNATURE_PATTERNS : List String :=
  ["_CodeSignature", ".DS_Store", "CodeResources", "embedded.provisionprofile"]

/-- Does the pattern occur at the head of the character list
(the matching step of String.prototype.includes). -/
def charsLeadWith : List Char → List Char → Bool
  | [], _ => true
  | _ :: _, [] => false
  | p :: ps, c :: cs => p == c && charsLeadWith ps cs

/-- Does the pattern occur contiguously anywhere in the character
list. -/
def charsContain (pat : List Char) : List Char → Bool
  | [] => charsLeadWith pat []
  | c :: cs => charsLeadWith pat (c :: cs) || charsContain pat cs

/-- relativePath.includes(pattern) of the source. -/
def strIncludes (s pat : String) : Bool :=
  charsContain pat.data s.data

/-- shouldSkipFile: SIGNATURE_PATTERNS.some(pattern =>
relativePath.includes(pattern)). -/
def shouldSkipFile (relativePath : String) : Bool :=
  SIGNATURE_PATTERNS.any (fun pat => strIncludes relativePath pat)

/-- The byte at index i of a buffer read from the file: the stored
byte, or 0 past the end (Buffer.alloc zero-fills and fs.readSync
leaves unread bytes untouched). -/
def byteAt : List Nat → Nat → Nat
  | [], _ => 0
  | b :: _, 0 => b
  | _ :: bs, i + 1 => byteAt bs i

/-- buffer.readUInt32LE(0) over the first four bytes read from the
file. -/
def readUInt32LE (b : List Nat) : Nat :=
  byteAt b 0 + 256 * byteAt b 1 + 65536 * byteAt b 2 + 16777216 * byteAt b 3

/-- isMachO: none models an unreadable file (fs.openSync throws and
the catch returns false); otherwise the first four bytes are compared
against the four magic constants. -/
def isMachO : Option (List Nat) → Bool
  | none => false
  | some b =>
    let magic := readUInt32LE b
    magic == 0xFEEDFACE || magic == 0xFEEDFACF ||
      magic == 0xCAFEBABE || magic == 0xBEBAFECA

/-- hashFile: the whole-file SHA-256 digest, idealised as the content
itself. -/
def hashFile (content : List Nat) : List Nat := content

/-- The section filter of hashMachOSegments: drop __LINKEDIT
sections, zerofill sections (offset 0) and empty sections (size 0),
keeping table order. -/
def extractSections (decls : List SectionDecl) : List SectionDecl :=
  decls.filter (fun s =>
    !(s.segname == "__LINKEDIT") && !(s.offset == 0) && !(s.size == 0))

/-- One section read of hashMachOSegments: Buffer.alloc(size) is
zero-filled, fs.readSync copies the bytes available at the offset and
leaves the rest zero. -/
def readSection (bytes : List Nat) (s : SectionDecl) : List Nat :=
  let avail := (bytes.drop s.offset).take s.size
  avail ++ List.replicate (s.size - avail.length) 0

/-- The ways hashMachOSegments can throw: the otool invocation fails,
or no sections survive the filter. -/
inductive HashSegError where
  | otoolFailed
  | noSections
deriving DecidableEq

/-- hashMachOSegments: run otool, filter the section table, fail when
nothing is left, otherwise digest the concatenation of the retained
section contents in table order (digest idealised as the byte
stream). -/
def hashMachOSegments (f : FileModel) : Except HashSegError (List Nat) :=
  match f.otool with
  | none => Except.error HashSegError.otoolFailed
  | some decls =>
    let sections := extractSections decls
    if sections.isEmpty then Except.error HashSegError.noSections
    else Except.ok ((sections.map (readSection f.bytes)).flatten)

/-- compareFiles: whole-file digests first; on mismatch, Mach-O files
get the section-hash comparison, any exception in it falls through to
modified. -/
def compareFiles (localF originalF : FileModel) : Classification :=
  if hashFile localF.bytes = hashFile originalF.bytes then
    Classification.fileMatch
  else if isMachO (some localF.bytes) then
    match hashMachOSegments localF, hashMachOSegments originalF with
    | Except.ok lh, Except.ok oh =>
      if lh = oh then Classification.signatureOnly else Classification.modified
    | _, _ => Classification.modified
  else Classification.modified

/-- The classification loop of compareApps: walk the local entries,
skip excluded paths and paths absent from the original set, look up
the original entry with the same relative path and classify the
pair. The lookup cannot miss (membership was just checked); the none
branch is an unreachable default. -/
def classifyCommon (localT origT : List (String × FileModel)) :
    List (String × Classification) :=
  (localT.filter (fun e =>
      !(shouldSkipFile e.1) && (origT.map Prod.fst).contains e.1)).map
    (fun e =>
      (e.1, match List.lookup e.1 origT with
            | some o => compareFiles e.2 o
            | none => Classification.modified))

/-- compareApps: the two missing-file passes over the path sets, then
the classification loop tallied into matched, signatureOnly and
modified (list order is local enumeration order, as in the source
loop). -/
def compareApps (localT origT : List (String × FileModel)) : Report :=
  let localPaths := localT.map Prod.fst
  let origPaths := origT.map Prod.fst
  let classified := classifyCommon localT origT
  { matched := classified.countP (fun x => decide (x.2 = Classification.fileMatch))
    modified := (classified.filter (fun x =>
      decide (x.2 = Classification.modified))).map Prod.fst
    signatureOnly := (classified.filter (fun x =>
      decide (x.2 = Classification.signatureOnly))).map Prod.fst
    missingInLocal := origPaths.filter (fun p =>
      !(shouldSkipFile p) && !(localPaths.contains p))
    missingInOriginal := localPaths.filter (fun p =>
      !(shouldSkipFile p) && !(origPaths.contains p)) }

/-- isValid from main: the final verdict. -/
def isValid (r : Report) : Bool :=
  r.modified.length == 0 && r.missingInLocal.length == 0

/-- C1: the verdict computed by main is Pass (isValid) exactly when
missingInLocal and modified are both empty, and the signatureOnly and
missingInOriginal buckets never influence it. -/
theorem isValid_pass_iff (r : Report) :
    (isValid r = true ↔ r.missingInLocal = [] ∧ r.modified = [])
  ∧ (∀ s m, isValid { r with signatureOnly := s, missingInOriginal := m } = isValid r) := by
  constructor
  · simp [isValid, List.length_eq_zero, and_comm]
  · intro s m
    rfl

/-- C2: when the whole-file digests differ and the local file is a
Mach-O image, compareFiles answers SignatureOnly exactly when section
hashing succeeds on both files with the same fingerprint; a hashing
failure on either side, or differing fingerprints, gives Modified,
and the pair is never classified as a match. -/
theorem compareFiles_machO_spec (l o : FileModel)
    (hd : hashFile l.bytes ≠ hashFile o.bytes)
    (hm : isMachO (some l.bytes) = true) :
    (compareFiles l o = Classification.signatureOnly ↔
      ∃ d, hashMachOSegments l = Except.ok d ∧ hashMachOSegments o = Except.ok d)
  ∧ (∀ e, hashMachOSegments l = Except.error e →
      compareFiles l o = Classification.modified)
  ∧ (∀ e, hashMachOSegments o = Except.error e →
      compareFiles l o = Classification.modified)
  ∧ (∀ dl dr, hashMachOSegments l = Except.ok dl →
      hashMachOSegments o = Except.ok dr → dl ≠ dr →
      compareFiles l o = Classification.modified)
  ∧ compareFiles l o ≠ Classification.fileMatch := by
  unfold compareFiles
  rw [if_neg hd, if_pos hm]
  cases hL : hashMachOSegments l <;> cases hO : hashMachOSegments o
  · simp
  · simp
  · simp
  · rename_i dl dr
    by_cases hdd : dl = dr
    · subst hdd
      simp
    · have hdd2 : dr ≠ dl := Ne.symm hdd
      simp [if_neg hdd, hdd, hdd2]

/-- C2 witness: a concrete pair with differing digests whose local
file is Mach-O and whose section hashing fails, classified Modified. -/
theorem compareFiles_machO_spec_witness :
    compareFiles ⟨[206, 250, 237, 254], none⟩ ⟨[0], none⟩ = Classification.modified :=
  (compareFiles_machO_spec ⟨[206, 250, 237, 254], none⟩ ⟨[0], none⟩
    (by decide) (by decide)).2.1 HashSegError.otoolFailed rfl

/-- C3: when the whole-file digests differ and the local file is not
recognised as Mach-O, compareFiles answers Modified. -/
theorem compareFiles_nonMachO_modified (l o : FileModel)
    (hd : hashFile l.bytes ≠ hashFile o.bytes)
    (hm : isMachO (some l.bytes) = false) :
    compareFiles l o = Classification.modified := by
  unfold compareFiles
  rw [if_neg hd]
  simp [hm]

/-- C3 witness: two distinct one-byte files, neither Mach-O. -/
theorem compareFiles_nonMachO_modified_witness :
    compareFiles ⟨[1], none⟩ ⟨[2], none⟩ = Classification.modified :=
  compareFiles_nonMachO_modified ⟨[1], none⟩ ⟨[2], none⟩ (by decide) (by decide)

/-- C4: every section retained by the filter has nonzero size,
nonzero offset and is outside __LINKEDIT; the retained sections are a
sublist of the declared table (order preserved); and when the
filtered list is empty the hasher fails with the no-comparable-sections
error instead of producing a digest. -/
theorem extractSections_spec (decls : List SectionDecl) (f : FileModel) :
    (∀ s ∈ extractSections decls,
      s.size ≠ 0 ∧ s.offset ≠ 0 ∧ s.segname ≠ "__LINKEDIT")
  ∧ List.Sublist (extractSections decls) decls
  ∧ (f.otool = some decls → extractSections decls = [] →
      hashMachOSegments f = Except.error HashSegError.noSections) := by
  refine ⟨?_, ?_, ?_⟩
  · intro s hs
    have h := (List.mem_filter.mp hs).2
    simp only [Bool.and_eq_true, Bool.not_eq_true', beq_eq_false_iff_ne] at h
    exact ⟨h.2, h.1.2, h.1.1⟩
  · unfold extractSections
    exact List.filter_sublist _
  · intro ho he
    unfold hashMachOSegments
    rw [ho]
    simp [he]

/-- C4 witness: a table holding only a __LINKEDIT section filters to
nothing and the hasher fails. -/
theorem extractSections_spec_witness :
    hashMachOSegments ⟨[1, 2, 3], some [⟨"__sym", "__LINKEDIT", 4, 8⟩]⟩ =
      Except.error HashSegError.noSections :=
  (extractSections_spec [⟨"__sym", "__LINKEDIT", 4, 8⟩]
    ⟨[1, 2, 3], some [⟨"__sym", "__LINKEDIT", 4, 8⟩]⟩).2.2 rfl (by decide)

/-- The Mach-O file used for C5: four bytes long, declaring a __TEXT
section of 8 bytes at offset 2, which overruns the end of file. -/
def overrunFile : FileModel :=
  ⟨[206, 250, 237, 254], some [⟨"__text", "__TEXT", 8, 2⟩]⟩

/-- C5 counterexample: on a Mach-O file whose declared section
overruns the end of the file the hasher does not fail at all; the
read is silently truncated and zero-padded (fs.readSync never throws
for an out-of-range read) and a digest is returned, refuting the
claimed IoError failure. -/
theorem hashMachOSegments_overrun_counterexample :
    isMachO (some overrunFile.bytes) = true
  ∧ (∃ s ∈ extractSections [⟨"__text", "__TEXT", 8, 2⟩],
      overrunFile.bytes.length < s.offset + s.size)
  ∧ hashMachOSegments overrunFile = Except.ok [237, 254, 0, 0, 0, 0, 0, 0] := by
  refine ⟨by decide, ⟨⟨"__text", "__TEXT", 8, 2⟩, by decide, by decide⟩, rfl⟩

/-- C5 amended: when otool succeeds and at least one section survives
the filter, the hasher always returns a digest, even when a declared
section extends past the end of the file; each retained section
contributes exactly its declared size bytes, the part past the end of
file read as zeros. -/
theorem hashMachOSegments_overrun_amended (f : FileModel)
    (decls : List SectionDecl) (ho : f.otool = some decls)
    (hne : extractSections decls ≠ []) :
    hashMachOSegments f =
      Except.ok ((extractSections decls).map (readSection f.bytes)).flatten
  ∧ (∀ s ∈ extractSections decls, (readSection f.bytes s).length = s.size) := by
  constructor
  · unfold hashMachOSegments
    rw [ho]
    simp [List.isEmpty_iff, hne]
  · intro s _
    have hlen : ((f.bytes.drop s.offset).take s.size).length ≤ s.size :=
      le_trans (le_of_eq (List.length_take _ _)) (Nat.min_le_left _ _)
    simp only [readSection, List.length_append, List.length_replicate]
    omega

/-- C5 amended witness: the overrunning file from the counterexample
still yields a digest. -/
theorem hashMachOSegments_overrun_amended_witness :
    hashMachOSegments overrunFile =
      Except.ok ((extractSections [⟨"__text", "__TEXT", 8, 2⟩]).map
        (readSection overrunFile.bytes)).flatten :=
  (hashMachOSegments_overrun_amended overrunFile [⟨"__text", "__TEXT", 8, 2⟩]
    rfl (by decide)).1

/-- A byte read out of the buffer past the end of the stored content
is zero. -/
theorem byteAt_eq_zero (b : List Nat) (i : Nat) (h : b.length ≤ i) :
    byteAt b i = 0 := by
  induction b generalizing i with
  | nil => simp [byteAt]
  | cons a t ih =>
    cases i with
    | zero => simp at h
    | succ j =>
      simp only [byteAt]
      exact ih j (Nat.le_of_succ_le_succ h)

/-- Every byte read out of a buffer over byte-valued content is below
256 (either a stored byte or the zero fill). -/
theorem byteAt_lt_256 (b : List Nat) (hb : ∀ x ∈ b, x < 256) (i : Nat) :
    byteAt b i < 256 := by
  induction b generalizing i with
  | nil => simp [byteAt]
  | cons a t ih =>
    cases i with
    | zero =>
      simp only [byteAt]
      exact hb a (List.mem_cons_self a t)
    | succ j =>
      simp only [byteAt]
      exact ih (fun x hx => hb x (List.mem_cons_of_mem a hx)) j

/-- C6: the format sniffer is total: it answers false on an
unreadable file, answers executable exactly when the little-endian
32-bit magic of the zero-padded first four bytes equals one of the
four constants, and answers false on every byte-valued file shorter
than four bytes. -/
theorem isMachO_spec (f : Option (List Nat)) :
    (isMachO none = false)
  ∧ (isMachO f = true ↔ ∃ b, f = some b ∧
      (readUInt32LE b = 0xFEEDFACE ∨ readUInt32LE b = 0xFEEDFACF ∨
       readUInt32LE b = 0xCAFEBABE ∨ readUInt32LE b = 0xBEBAFECA))
  ∧ (∀ b, f = some b → (∀ x ∈ b, x < 256) → b.length < 4 →
      isMachO f = false) := by
  refine ⟨rfl, ?_, ?_⟩
  · cases f with
    | none => simp [isMachO]
    | some b => simp [isMachO, or_assoc]
  · intro b hf hb hlen
    subst hf
    have h3 : byteAt b 3 = 0 := byteAt_eq_zero b 3 (by omega)
    have h0 := byteAt_lt_256 b hb 0
    have h1 := byteAt_lt_256 b hb 1
    have h2 := byteAt_lt_256 b hb 2
    apply Bool.eq_false_iff.mpr
    intro htrue
    simp only [isMachO, readUInt32LE, h3, Bool.or_eq_true, beq_iff_eq] at htrue
    omega

/-- C6 witness: a three-byte file starting like a Mach-O magic is
still rejected. -/
theorem isMachO_spec_witness :
    isMachO (some [206, 250, 237]) = false :=
  (isMachO_spec (some [206, 250, 237])).2.2 [206, 250, 237] rfl
    (by decide) (by decide)

/-- C7: missingInLocal is exactly the set of original paths absent
from the local path set and not excluded, and missingInOriginal is
exactly the set of local paths absent from the original path set and
not excluded. -/
theorem missing_buckets_spec (localT origT : List (String × FileModel)) (p : String) :
    (p ∈ (compareApps localT origT).missingInLocal ↔
      p ∈ origT.map Prod.fst ∧ ¬ p ∈ localT.map Prod.fst ∧ shouldSkipFile p = false)
  ∧ (p ∈ (compareApps localT origT).missingInOriginal ↔
      p ∈ localT.map Prod.fst ∧ ¬ p ∈ origT.map Prod.fst ∧ shouldSkipFile p = false) := by
  constructor <;>
  · simp only [compareApps, List.mem_filter, Bool.and_eq_true, Bool.not_eq_true',
      List.contains, List.elem_eq_mem, decide_eq_false_iff_not]
    tauto

/-- Every pair produced by the classification loop carries a
non-excluded path. -/
theorem classifyCommon_not_skipped (localT origT : List (String × FileModel))
    (x : String × Classification) (hx : x ∈ classifyCommon localT origT) :
    shouldSkipFile x.1 = false := by
  unfold classifyCommon at hx
  obtain ⟨e, he, rfl⟩ := List.mem_map.mp hx
  have h := (List.mem_filter.mp he).2
  simp only [Bool.and_eq_true, Bool.not_eq_true'] at h
  exact h.1

/-- C8: a path matching one of the signature patterns appears in none
of the four report buckets and is never classified at all. -/
theorem excluded_paths_spec (localT origT : List (String × FileModel))
    (p : String) (hp : ∃ pat ∈ SIGNATURE_PATTERNS, strIncludes p pat = true) :
    p ∉ (compareApps localT origT).modified
  ∧ p ∉ (compareApps localT origT).signatureOnly
  ∧ p ∉ (compareApps localT origT).missingInLocal
  ∧ p ∉ (compareApps localT origT).missingInOriginal
  ∧ p ∉ (classifyCommon localT origT).map Prod.fst := by
  have hskip : shouldSkipFile p = true := by
    obtain ⟨pat, hmem, hinc⟩ := hp
    exact List.any_eq_true.mpr ⟨pat, hmem, hinc⟩
  refine ⟨?_, ?_, ?_, ?_, ?_⟩
  · intro hmem2
    simp only [compareApps] at hmem2
    obtain ⟨x, hx, rfl⟩ := List.mem_map.mp hmem2
    have h := classifyCommon_not_skipped localT origT x (List.mem_filter.mp hx).1
    simp [hskip] at h
  · intro hmem2
    simp only [compareApps] at hmem2
    obtain ⟨x, hx, rfl⟩ := List.mem_map.mp hmem2
    have h := classifyCommon_not_skipped localT origT x (List.mem_filter.mp hx).1
    simp [hskip] at h
  · intro hmem2
    simp only [compareApps] at hmem2
    have h := (List.mem_filter.mp hmem2).2
    simp [hskip] at h
  · intro hmem2
    simp only [compareApps] at hmem2
    have h := (List.mem_filter.mp hmem2).2
    simp [hskip] at h
  · intro hmem2
    obtain ⟨x, hx, rfl⟩ := List.mem_map.mp hmem2
    have h := classifyCommon_not_skipped localT origT x hx
    simp [hskip] at h

/-- C8 witness: a path inside a _CodeSignature directory present in
both trees with different contents is not reported anywhere. -/
theorem excluded_paths_spec_witness :
    "app/_CodeSignature/x" ∉
      (compareApps [("app/_CodeSignature/x", FileModel.mk [0] none)]
        [("app/_CodeSignature/x", FileModel.mk [1] none)]).modified :=
  (excluded_paths_spec [("app/_CodeSignature/x", FileModel.mk [0] none)]
    [("app/_CodeSignature/x", FileModel.mk [1] none)] "app/_CodeSignature/x"
    ⟨"_CodeSignature", by decide, by decide⟩).1

/-- In a table whose keys are distinct, looking a member entry up by
its key finds exactly that entry. -/
theorem lookup_self (e : String × FileModel) :
    ∀ T : List (String × FileModel), (T.map Prod.fst).Nodup → e ∈ T →
      List.lookup e.1 T = some e.2 := by
  obtain ⟨a, v⟩ := e
  intro T
  induction T with
  | nil =>
    intro _ hm
    cases hm
  | cons h t ih =>
    obtain ⟨k, w⟩ := h
    intro hnd hm
    simp only [List.map_cons, List.nodup_cons] at hnd
    rcases List.mem_cons.mp hm with heq | hmem
    · injection heq with h1 h2
      subst h1
      subst h2
      simp [List.lookup]
    · have hak : a ≠ k := by
        intro hak
        subst hak
        exact hnd.1 (List.mem_map_of_mem Prod.fst hmem)
      have hb : (a == k) = false := beq_eq_false_iff_ne.mpr hak
      simp only [List.lookup, hb]
      exact ih hnd.2 hmem

/-- C9: diffing a tree against an identical copy of itself leaves all
difference buckets empty and counts every non-excluded file as
matched. -/
theorem diff_self_spec (T : List (String × FileModel))
    (hnd : (T.map Prod.fst).Nodup) :
    compareApps T T =
      { matched := (T.filter (fun e => !(shouldSkipFile e.1))).length
        modified := []
        signatureOnly := []
        missingInLocal := []
        missingInOriginal := [] } := by
  have hclass : classifyCommon T T =
      (T.filter (fun e => !(shouldSkipFile e.1))).map
        (fun e => (e.1, Classification.fileMatch)) := by
    unfold classifyCommon
    have hfc : T.filter (fun e =>
          !(shouldSkipFile e.1) && (T.map Prod.fst).contains e.1)
        = T.filter (fun e => !(shouldSkipFile e.1)) := by
      apply List.filter_congr
      intro e he
      have hc : (T.map Prod.fst).contains e.1 = true := by
        have hmm : e.1 ∈ T.map Prod.fst := List.mem_map_of_mem Prod.fst he
        simp [List.contains, List.elem_eq_mem, hmm]
      rw [hc, Bool.and_true]
    rw [hfc]
    apply List.map_congr_left
    intro e he
    have he2 : e ∈ T := (List.mem_filter.mp he).1
    have hl : List.lookup e.1 T = some e.2 := lookup_self e T hnd he2
    have hcf : compareFiles e.2 e.2 = Classification.fileMatch := by
      unfold compareFiles
      rw [if_pos rfl]
    simp only [hl, hcf]
  have hmiss : ∀ ps : List String,
      ps.filter (fun p => !(shouldSkipFile p) && !(ps.contains p)) = [] := by
    intro ps
    apply List.filter_eq_nil_iff.mpr
    intro p hp
    simp [List.contains, List.elem_eq_mem, hp]
  simp only [compareApps, hclass, hmiss, Report.mk.injEq, and_true, true_and]
  refine ⟨?_, ?_, ?_⟩
  · rw [List.countP_map]
    simp [Function.comp]
  · simp [List.filter_map, Function.comp]
  · simp [List.filter_map, Function.comp]

/-- C9 witness: a two-file tree, one file excluded, diffed against
itself. -/
theorem diff_self_spec_witness :
    compareApps
      [("a", FileModel.mk [1] none), ("b/_CodeSignature", FileModel.mk [2] none)]
      [("a", FileModel.mk [1] none), ("b/_CodeSignature", FileModel.mk [2] none)] =
      { matched := 1, modified := [], signatureOnly := [],
        missingInLocal := [], missingInOriginal := [] } :=
  (diff_self_spec
    [("a", FileModel.mk [1] none), ("b/_CodeSignature", FileModel.mk [2] none)]
    (by decide)).trans (by decide)

/-- Every classified pair lands in exactly one of the three outcomes,
so the three tallies add up to the number of classified pairs. -/
theorem countP_classification (l : List (String × Classification)) :
    l.countP (fun x => decide (x.2 = Classification.fileMatch))
      + l.countP (fun x => decide (x.2 = Classification.signatureOnly))
      + l.countP (fun x => decide (x.2 = Classification.modified))
    = l.length := by
  induction l with
  | nil => rfl
  | cons x t ih =>
    rcases x with ⟨p, c⟩
    cases c <;> simp [List.countP_cons] <;> omega

/-- C10: matched plus the signature-only and modified buckets exactly
covers the non-excluded paths present in both trees. -/
theorem classification_partition_spec (localT origT : List (String × FileModel)) :
    (compareApps localT origT).matched
      + (compareApps localT origT).signatureOnly.length
      + (compareApps localT origT).modified.length
    = ((localT.map Prod.fst).filter (fun p =>
        !(shouldSkipFile p) && (origT.map Prod.fst).contains p)).length := by
  have hlen : (classifyCommon localT origT).length
      = ((localT.map Prod.fst).filter (fun p =>
          !(shouldSkipFile p) && (origT.map Prod.fst).contains p)).length := by
    unfold classifyCommon
    rw [List.length_map, List.filter_map, List.length_map]
    rfl
  simp only [compareApps]
  rw [List.length_map, List.length_map,
    ← List.countP_eq_length_filter, ← List.countP_eq_length_filter,
    countP_classification]
  exact hlen
